import Mathlib

/-!
Verification of the SQLite-backed local status cache
(`offlineimap/folder/LocalStatusSQLite.py`).

The component keeps an in-memory mapping `messagelist` from message uid to a
record `{uid, flags, optional time}`, mirrored in an SQLite table
`status (id INTEGER PRIMARY KEY, flags VARCHAR)`.  We embed the Python code
shallowly: the dictionary becomes an association list over `Int`, the SQLite
table a list of `(id, flags-string)` rows, and each method a pure function on
the combined state.  The connection obtained by `get_cursor` uses
`isolation_level=None`, i.e. autocommit: every executed SQL statement is
durable immediately, which we reflect by applying each statement to the table
as it is executed.
-/

set_option linter.unusedVariables false
set_option linter.unnecessarySimpa false

namespace LocalStatusSQLite

/-- A message record as stored in `self.messagelist`: the Python dict
`{'uid': uid, 'flags': flags}` optionally carrying a `'time'` key
(`{'uid': uid, 'flags': flags, 'time': rtime}` in `savemessage`).
`time = none` models the absence of the `'time'` key. -/
structure MsgRec where
  uid : Int
  flags : List Char
  time : Option Int
deriving Repr, DecidableEq

/-- Keys of an association list. -/
def keys {α : Type} (m : List (Int × α)) : List Int :=
  m.map Prod.fst

/-- Dictionary lookup: first entry with the given key (Python `m[k]` /
`k in m`). -/
def alookup {α : Type} : List (Int × α) → Int → Option α
  | [], _ => none
  | (k, v) :: rest, u => if k = u then some v else alookup rest u

/-- Dictionary assignment `m[k] = v`: replace the entry for `k` if present,
otherwise append a new entry. -/
def ainsert {α : Type} : List (Int × α) → Int → α → List (Int × α)
  | [], k, v => [(k, v)]
  | (k', v') :: rest, k, v =>
    if k' = k then (k, v) :: rest else (k', v') :: ainsert rest k v

/-- Dictionary deletion `del m[k]`: drop the (first) entry for `k`. -/
def aerase {α : Type} : List (Int × α) → Int → List (Int × α)
  | [], _ => []
  | (k', v') :: rest, k => if k' = k then rest else (k', v') :: aerase rest k

/-- The serialisation applied before every store write:
`flags.sort(); flags = ''.join(flags)`. -/
def encodeFlags (flags : List Char) : String :=
  String.mk (flags.insertionSort (· ≤ ·))

/-- The deserialisation applied on load: `flags = [x for x in row[1]]`. -/
def decodeFlags (s : String) : List Char :=
  s.data

/-- Combined state of one `LocalStatusSQLiteFolder`: the in-memory
`self.messagelist` and the rows of the on-disk `status` table. -/
structure DB where
  messagelist : List (Int × MsgRec)
  status : List (Int × String)
deriving Repr, DecidableEq

/-- State right after `create_db`: empty cache, empty `status` table. -/
def DB.empty : DB :=
  ⟨[], []⟩

/-- Modelled from the spec: `uidexists` is inherited from the base folder
class (not part of this file); per the spec, `exists(id)` is a read-only
helper served from the in-memory cache, i.e. membership in `messagelist`
(the commented-out pure-SQLite variant in the source confirms this). -/
def uidexists (db : DB) (uid : Int) : Bool :=
  (alookup db.messagelist uid).isSome

/-- Modelled from the spec: `getmessagecount` is inherited from the base
folder class (not part of this file); per the spec, `count()` is a read-only
helper served from the in-memory cache, i.e. the size of `messagelist`. -/
def getmessagecount (db : DB) : Nat :=
  db.messagelist.length

/-- `isnewfolder`: `return self.getmessagecount() > 0`. -/
def isnewfolder (db : DB) : Bool :=
  decide (getmessagecount db > 0)

/-- `savemessageflags(uid, flags)`: sets `messagelist[uid]` to a fresh dict
`{'uid': uid, 'flags': flags}` (no `'time'` key), sorts `flags` in place —
the cache record aliases the same list, so it ends up sorted — and issues
`UPDATE status SET flags=? WHERE id=?`. -/
def savemessageflags (db : DB) (uid : Int) (flags : List Char) : DB :=
  let sorted := flags.insertionSort (· ≤ ·)
  { messagelist := ainsert db.messagelist uid ⟨uid, sorted, none⟩,
    status := db.status.map (fun r => if r.1 = uid then (r.1, String.mk sorted) else r) }

/-- `savemessage(uid, content, flags, rtime)`, successful path: returns `uid`
unchanged if negative; delegates to `savemessageflags` if `uid` is already
cached; otherwise adds `{'uid','flags','time'}` to the cache, then inserts
the sorted flag string into `status`. -/
def savemessage (db : DB) (uid : Int) (content : String) (flags : List Char)
    (rtime : Int) : DB × Int :=
  if uid < 0 then (db, uid)
  else if uidexists db uid then (savemessageflags db uid flags, uid)
  else
    let sorted := flags.insertionSort (· ≤ ·)
    ({ messagelist := ainsert db.messagelist uid ⟨uid, sorted, some rtime⟩,
       status := db.status ++ [(uid, String.mk sorted)] }, uid)

/-- `deletemessages(uidlist)`, completed calls only: filters `uidlist` to
uids present in `messagelist`, returns immediately when the filtered list
is empty (no connection is even opened), otherwise deletes each uid from
the cache and executes one `DELETE FROM status WHERE id=:id` per uid.  The
second component records the ids for which a DELETE statement was issued.
This function models only calls that run to completion; a uid that is
repeated in the once-computed filtered list makes the Python loop raise
KeyError on its second `del self.messagelist[uid]` — that error path is
modelled separately by `runDeletesChecked` / `deletemessagesChecked`
below. -/
def deletemessages (db : DB) (uidlist : List Int) : DB × List Int :=
  let l := uidlist.filter (fun uid => (alookup db.messagelist uid).isSome)
  if l.isEmpty then (db, [])
  else
    ({ messagelist := l.foldl aerase db.messagelist,
       status := l.foldl (fun st uid => st.filter (fun r => decide (r.1 ≠ uid))) db.status },
     l)

/-- `deletemessagelist()`: executes `DELETE FROM status`.  Note that it does
not touch `self.messagelist`. -/
def deletemessagelist (db : DB) : DB :=
  { db with status := [] }

/-- `cachemessagelist()`: resets `messagelist` to `{}` and repopulates it
from `SELECT id,flags from status`, decoding each row's flag string into a
list of characters (no `'time'` key). -/
def cachemessagelist (db : DB) : DB :=
  { db with
    messagelist :=
      db.status.foldl (fun m row => ainsert m row.1 ⟨row.1, decodeFlags row.2, none⟩) [] }

/-! ### Fault-injection models

`savemessage` runs its INSERT in a `while True` loop that catches
`sqlite.OperationalError`, retries when the message is exactly
`'database is locked'`, re-raises any other `OperationalError`, and lets any
other exception type propagate uncaught.  We model the storage engine's
behaviour as a finite list of per-attempt outcomes. -/

/-- Outcome of one `cursor.execute` attempt of the INSERT. -/
inductive ExecOutcome where
  /-- The statement succeeded. -/
  | success
  /-- `sqlite.OperationalError` with the given message was raised. -/
  | operationalError (msg : String)
  /-- An exception of a different class (e.g. `IntegrityError`) was raised. -/
  | otherError (msg : String)
deriving Repr, DecidableEq

/-- Net result of the retry loop. -/
inductive RetryResult where
  /-- The loop hit `break`: the INSERT went through. -/
  | done
  /-- An exception escaped the loop (re-`raise`d or uncaught). -/
  | raised (msg : String)
  /-- The supplied outcome list was exhausted with the loop still spinning
  (the engine kept reporting the transient lock). -/
  | stillRetrying
deriving Repr, DecidableEq

/-- The `while True` retry loop around `cursor.execute('INSERT ...')`. -/
def insertRetry : List ExecOutcome → RetryResult
  | [] => .stillRetrying
  | .success :: _ => .done
  | .operationalError msg :: rest =>
    if msg = "database is locked" then insertRetry rest else .raised msg
  | .otherError msg :: _ => .raised msg

/-- `savemessage` with the INSERT's engine behaviour supplied explicitly.
Returns `none` when the loop never terminates (locks forever); otherwise the
state after the call together with the returned uid or the escaped
exception.  The cache assignment `self.messagelist[uid] = ...` happens
before the INSERT is attempted and is not undone on failure. -/
def savemessageWith (db : DB) (uid : Int) (content : String) (flags : List Char)
    (rtime : Int) (outcomes : List ExecOutcome) : Option (DB × Except String Int) :=
  if uid < 0 then some (db, .ok uid)
  else if uidexists db uid then some (savemessageflags db uid flags, .ok uid)
  else
    let sorted := flags.insertionSort (· ≤ ·)
    let db1 : DB :=
      { db with messagelist := ainsert db.messagelist uid ⟨uid, sorted, some rtime⟩ }
    match insertRetry outcomes with
    | .done => some ({ db1 with status := db1.status ++ [(uid, String.mk sorted)] }, .ok uid)
    | .raised msg => some (db1, .error msg)
    | .stillRetrying => none

/-- One step of the `deletemessages` loop with fault injection: for each uid
the cache entry is deleted first, then `DELETE FROM status WHERE id=:id` is
executed on the autocommitting connection; `fail uid = some msg` makes that
DELETE raise.  Deletions already executed stay committed. -/
def runDeletes (fail : Int → Option String) :
    List Int → List (Int × MsgRec) → List (Int × String) →
    List (Int × MsgRec) × List (Int × String) × Except String Unit
  | [], ml, st => (ml, st, .ok ())
  | uid :: rest, ml, st =>
    let ml' := aerase ml uid
    match fail uid with
    | some msg => (ml', st, .error msg)
    | none => runDeletes fail rest ml' (st.filter (fun r => decide (r.1 ≠ uid)))

/-- `deletemessages` with fault injection on the per-row DELETE statements.
Returns the state after the call and the call's result. -/
def deletemessagesWith (db : DB) (uidlist : List Int) (fail : Int → Option String) :
    DB × Except String Unit :=
  let l := uidlist.filter (fun uid => (alookup db.messagelist uid).isSome)
  if l.isEmpty then (db, .ok ())
  else
    let r := runDeletes fail l db.messagelist db.status
    (⟨r.1, r.2.1⟩, r.2.2)

/-- Result of a `deletemessages` call in the model that keeps the KeyError
path: the state after the call, the ids for which a DELETE statement was
issued, and whether the call returned normally or raised. -/
structure DelOutcome where
  db : DB
  deletes : List Int
  outcome : Except String Unit

/-- The `deletemessages` loop with Python's `del` semantics: the filtered
uid list was computed once against the initial cache, so a uid repeated in
it has already been deleted when its second pass runs and
`del self.messagelist[uid]` raises KeyError; the DELETE statements already
executed on the autocommitting connection stay committed.  For each uid the
cache `del` runs first, then the DELETE statement. -/
def runDeletesChecked : List Int → List (Int × MsgRec) → List (Int × String) → DelOutcome
  | [], ml, st => ⟨⟨ml, st⟩, [], .ok ()⟩
  | uid :: rest, ml, st =>
    if (alookup ml uid).isSome then
      let r := runDeletesChecked rest (aerase ml uid)
        (st.filter (fun x => decide (x.1 ≠ uid)))
      ⟨r.db, uid :: r.deletes, r.outcome⟩
    else
      ⟨⟨ml, st⟩, [], .error "KeyError"⟩

/-- `deletemessages(uidlist)` with the KeyError path modelled: identical to
`deletemessages` on calls that complete, but faithful to the abort when a
cached uid is repeated in the filtered list. -/
def deletemessagesChecked (db : DB) (uidlist : List Int) : DelOutcome :=
  let l := uidlist.filter (fun uid => (alookup db.messagelist uid).isSome)
  if l.isEmpty then ⟨db, [], .ok ()⟩
  else runDeletesChecked l db.messagelist db.status

/-! ### Operation sequences and the cache/store coherence invariant -/

/-- A completed mutating operation on the folder. -/
inductive Op where
  /-- `savemessage(uid, content, flags, rtime)` -/
  | save (uid : Int) (content : String) (flags : List Char) (rtime : Int)
  /-- `savemessageflags(uid, flags)` -/
  | saveflags (uid : Int) (flags : List Char)
  /-- `deletemessages(uidlist)` -/
  | delete (uidlist : List Int)
  /-- `deletemessagelist()` -/
  | deleteAll
deriving Repr, DecidableEq

/-- Apply one completed operation to the state. -/
def applyOp (db : DB) : Op → DB
  | .save uid content flags rtime => (savemessage db uid content flags rtime).1
  | .saveflags uid flags => savemessageflags db uid flags
  | .delete uidlist => (deletemessages db uidlist).1
  | .deleteAll => deletemessagelist db

/-- Precondition of an operation: `savemessageflags` is only ever called for
an identifier already present in the cache (in the source it is reached via
`savemessage` after a positive `uidexists` check). -/
def opPre (db : DB) : Op → Prop
  | .saveflags uid _ => uidexists db uid = true
  | _ => True

/-- Run a sequence of operations. -/
def run (db : DB) : List Op → DB
  | [] => db
  | op :: rest => run (applyOp db op) rest

/-- All operations of the sequence satisfy their preconditions at the state
where they execute. -/
def runPre (db : DB) : List Op → Prop
  | [] => True
  | op :: rest => opPre db op ∧ runPre (applyOp db op) rest

/-- Equality of two flag lists as sets. -/
def flagSetEq (a b : List Char) : Prop :=
  ∀ c, c ∈ a ↔ c ∈ b

/-- The claim's notion of agreement between two caches: same identifier set,
and set-equal flags for every identifier. -/
def cacheAgrees (a b : List (Int × MsgRec)) : Prop :=
  ∀ uid : Int,
    match alookup a uid, alookup b uid with
    | some r, some r' => flagSetEq r.flags r'.flags
    | none, none => True
    | _, _ => False

/-- Cache/store coherence: the in-memory `messagelist` agrees with what an
independent full reload (`cachemessagelist`) from the `status` table would
produce. -/
def coherent (db : DB) : Prop :=
  cacheAgrees db.messagelist (cachemessagelist db).messagelist

/-! ### Association-list lemmas -/

theorem keys_cons {α : Type} (k : Int) (v : α) (rest : List (Int × α)) :
    keys ((k, v) :: rest) = k :: keys rest := rfl

theorem mem_keys_nil {α : Type} (u : Int) : u ∈ keys ([] : List (Int × α)) ↔ False := by
  simp [keys]

theorem mem_keys_cons {α : Type} (k : Int) (v : α) (rest : List (Int × α)) (u : Int) :
    u ∈ keys ((k, v) :: rest) ↔ u = k ∨ u ∈ keys rest := by
  simp [keys]

theorem nodup_keys_cons {α : Type} (k : Int) (v : α) (rest : List (Int × α)) :
    (keys ((k, v) :: rest)).Nodup ↔ k ∉ keys rest ∧ (keys rest).Nodup := by
  simp [keys]

theorem alookup_isSome_iff {α : Type} (m : List (Int × α)) (u : Int) :
    (alookup m u).isSome ↔ u ∈ keys m := by
  induction m with
  | nil => simp [alookup, mem_keys_nil]
  | cons p rest ih =>
    obtain ⟨k, v⟩ := p
    by_cases h : k = u
    · subst h
      simp [alookup, mem_keys_cons]
    · have h' : ¬ u = k := fun hh => h hh.symm
      rw [mem_keys_cons]
      simp [alookup, h, h', ih]

theorem alookup_eq_none_iff {α : Type} (m : List (Int × α)) (u : Int) :
    alookup m u = none ↔ u ∉ keys m := by
  rw [← alookup_isSome_iff]
  cases alookup m u <;> simp

theorem alookup_ainsert {α : Type} (m : List (Int × α)) (k : Int) (v : α) (u : Int) :
    alookup (ainsert m k v) u = if k = u then some v else alookup m u := by
  induction m with
  | nil => simp [ainsert, alookup]
  | cons p rest ih =>
    obtain ⟨k', v'⟩ := p
    by_cases h1 : k' = k
    · subst h1
      by_cases h2 : k' = u <;> simp [ainsert, alookup, h2]
    · by_cases h2 : k' = u
      · have hk : ¬ k = u := fun hh => h1 (h2.trans hh.symm)
        have hk2 : ¬ u = k := fun hh => hk hh.symm
        simp [ainsert, alookup, h1, h2, hk, hk2]
      · simp [ainsert, alookup, h1, h2, ih]

theorem keys_ainsert_mem {α : Type} (m : List (Int × α)) (k : Int) (v : α)
    (h : k ∈ keys m) : keys (ainsert m k v) = keys m := by
  induction m with
  | nil => exact absurd h (by simp [mem_keys_nil])
  | cons p rest ih =>
    obtain ⟨k', v'⟩ := p
    by_cases h1 : k' = k
    · subst h1
      simp [ainsert, keys]
    · have hk : k ∈ keys rest := by
        rcases (mem_keys_cons k' v' rest k).mp h with h' | h'
        · exact absurd h'.symm h1
        · exact h'
      rw [show ainsert ((k', v') :: rest) k v = (k', v') :: ainsert rest k v from by
            simp [ainsert, h1],
          keys_cons, keys_cons, ih hk]

theorem keys_ainsert_not_mem {α : Type} (m : List (Int × α)) (k : Int) (v : α)
    (h : k ∉ keys m) : keys (ainsert m k v) = keys m ++ [k] := by
  induction m with
  | nil => simp [ainsert, keys]
  | cons p rest ih =>
    obtain ⟨k', v'⟩ := p
    have h1 : ¬ k' = k := by
      intro hh
      exact h ((mem_keys_cons k' v' rest k).mpr (Or.inl hh.symm))
    have h2 : k ∉ keys rest := by
      intro hh
      exact h ((mem_keys_cons k' v' rest k).mpr (Or.inr hh))
    rw [show ainsert ((k', v') :: rest) k v = (k', v') :: ainsert rest k v from by
          simp [ainsert, h1],
        keys_cons, keys_cons, ih h2]
    simp

theorem nodup_keys_ainsert {α : Type} (m : List (Int × α)) (k : Int) (v : α)
    (h : (keys m).Nodup) : (keys (ainsert m k v)).Nodup := by
  by_cases hm : k ∈ keys m
  · rw [keys_ainsert_mem m k v hm]
    exact h
  · rw [keys_ainsert_not_mem m k v hm]
    simp [List.nodup_append, h, hm]

theorem alookup_aerase {α : Type} (m : List (Int × α)) (k u : Int)
    (h : (keys m).Nodup) :
    alookup (aerase m k) u = if u = k then none else alookup m u := by
  induction m with
  | nil => simp [aerase, alookup]
  | cons p rest ih =>
    obtain ⟨k', v'⟩ := p
    have hk' : k' ∉ keys rest := ((nodup_keys_cons k' v' rest).mp h).1
    have hrest : (keys rest).Nodup := ((nodup_keys_cons k' v' rest).mp h).2
    by_cases h1 : k' = k
    · subst h1
      by_cases h2 : u = k'
      · simp [aerase, alookup, h2, alookup_eq_none_iff, hk']
      · have h2' : ¬ k' = u := fun hh => h2 hh.symm
        simp [aerase, alookup, h2, h2']
    · by_cases h2 : k' = u
      · have h4 : ¬ u = k := fun hh => h1 (h2.trans hh)
        simp [aerase, alookup, h1, h2, h4]
      · simp [aerase, alookup, h1, h2, ih hrest]

theorem keys_aerase_sublist {α : Type} (m : List (Int × α)) (k : Int) :
    List.Sublist (keys (aerase m k)) (keys m) := by
  induction m with
  | nil => simp [aerase, keys]
  | cons p rest ih =>
    obtain ⟨k', v'⟩ := p
    by_cases h1 : k' = k
    · simpa [aerase, keys, h1] using List.sublist_cons_self k' (keys rest)
    · simpa [aerase, keys, h1] using ih.cons₂ k'

theorem nodup_keys_aerase {α : Type} (m : List (Int × α)) (k : Int)
    (h : (keys m).Nodup) : (keys (aerase m k)).Nodup :=
  (keys_aerase_sublist m k).nodup h

theorem length_aerase_mem {α : Type} (m : List (Int × α)) (k : Int)
    (h : k ∈ keys m) : (aerase m k).length = m.length - 1 := by
  induction m with
  | nil => exact absurd h (by simp [mem_keys_nil])
  | cons p rest ih =>
    obtain ⟨k', v'⟩ := p
    by_cases h1 : k' = k
    · simp [aerase, h1]
    · have hk : k ∈ keys rest := by
        rcases (mem_keys_cons k' v' rest k).mp h with h' | h'
        · exact absurd h'.symm h1
        · exact h'
      have hlen : 1 ≤ rest.length := by
        cases rest with
        | nil => exact absurd hk (by simp [mem_keys_nil])
        | cons q t => simp
      simp [aerase, h1, ih hk]
      omega

theorem alookup_append {α : Type} (m1 m2 : List (Int × α)) (u : Int) :
    alookup (m1 ++ m2) u =
      match alookup m1 u with
      | some v => some v
      | none => alookup m2 u := by
  induction m1 with
  | nil => simp [alookup]
  | cons p rest ih =>
    obtain ⟨k, v⟩ := p
    by_cases h : k = u <;> simp [alookup, h, ih]

theorem alookup_filter_ne {α : Type} (st : List (Int × α)) (k u : Int) :
    alookup (st.filter (fun r => decide (r.1 ≠ k))) u =
      if u = k then none else alookup st u := by
  induction st with
  | nil => simp [alookup]
  | cons p rest ih =>
    obtain ⟨k', v'⟩ := p
    by_cases h1 : k' = k
    · rw [show ((k', v') :: rest).filter (fun r => decide (r.1 ≠ k)) =
            rest.filter (fun r => decide (r.1 ≠ k)) from by
          simp [List.filter_cons, h1]]
      rw [ih]
      by_cases h2 : u = k
      · simp [h2]
      · have h3 : ¬ k' = u := fun hh => h2 (hh.symm.trans h1)
        simp [alookup, h2, h3]
    · rw [show ((k', v') :: rest).filter (fun r => decide (r.1 ≠ k)) =
            (k', v') :: rest.filter (fun r => decide (r.1 ≠ k)) from by
          simp [List.filter_cons, h1]]
      by_cases h2 : k' = u
      · have h4 : ¬ u = k := fun hh => h1 (h2.trans hh)
        simp [alookup, h2, h4]
      · rw [show alookup ((k', v') :: rest.filter (fun r => decide (r.1 ≠ k))) u =
              alookup (rest.filter (fun r => decide (r.1 ≠ k))) u from by
            simp [alookup, h2]]
        rw [ih]
        by_cases h3 : u = k
        · simp [h3]
        · simp [alookup, h2, h3]

theorem keys_filter_sublist {α : Type} (st : List (Int × α)) (p : Int × α → Bool) :
    List.Sublist (keys (st.filter p)) (keys st) :=
  (List.filter_sublist st).map Prod.fst

theorem alookup_map_update {α : Type} (st : List (Int × α)) (k : Int) (v : α) (u : Int) :
    alookup (st.map (fun r => if r.1 = k then (r.1, v) else r)) u =
      if u = k then (alookup st u).map (fun _ => v) else alookup st u := by
  induction st with
  | nil => simp [alookup]
  | cons p rest ih =>
    obtain ⟨k', v'⟩ := p
    rw [List.map_cons]
    by_cases h1 : k' = k
    · rw [show (if (k', v').1 = k then ((k', v').1, v) else (k', v')) = (k', v) from by
            simp [h1]]
      by_cases h2 : k' = u
      · have h3 : u = k := (h2.symm).trans h1
        simp [alookup, h2, h3]
      · simp [alookup, h2, ih]
    · rw [show (if (k', v').1 = k then ((k', v').1, v) else (k', v')) = (k', v') from by
            simp [h1]]
      by_cases h2 : k' = u
      · have h4 : ¬ u = k := fun hh => h1 (h2.trans hh)
        simp [alookup, h2, h4]
      · simp [alookup, h2, ih]

theorem keys_map_update {α : Type} (st : List (Int × α)) (k : Int) (v : α) :
    keys (st.map (fun r => if r.1 = k then (r.1, v) else r)) = keys st := by
  induction st with
  | nil => simp [keys]
  | cons p rest ih =>
    obtain ⟨k', v'⟩ := p
    rw [List.map_cons]
    by_cases h1 : k' = k
    · rw [show (if (k', v').1 = k then ((k', v').1, v) else (k', v')) = (k', v) from by
            simp [h1],
          keys_cons, keys_cons, ih]
    · rw [show (if (k', v').1 = k then ((k', v').1, v) else (k', v')) = (k', v') from by
            simp [h1],
          keys_cons, keys_cons, ih]

/-! ### The cache/store coherence invariant -/

theorem alookup_cacheFold (rows : List (Int × String)) (init : List (Int × MsgRec)) (u : Int)
    (h : (keys rows).Nodup) :
    alookup (rows.foldl (fun m row => ainsert m row.1 ⟨row.1, decodeFlags row.2, none⟩) init) u =
      match alookup rows u with
      | some s => some ⟨u, decodeFlags s, none⟩
      | none => alookup init u := by
  induction rows generalizing init with
  | nil => simp [alookup]
  | cons p rest ih =>
    obtain ⟨k, s⟩ := p
    have hk : k ∉ keys rest := ((nodup_keys_cons k s rest).mp h).1
    have hrest : (keys rest).Nodup := ((nodup_keys_cons k s rest).mp h).2
    rw [List.foldl_cons, ih _ hrest]
    by_cases h2 : k = u
    · subst h2
      have hn : alookup rest k = none := (alookup_eq_none_iff rest k).mpr hk
      simp [alookup, hn, alookup_ainsert]
    · cases hr : alookup rest u with
      | some s' => simp [alookup, h2, hr]
      | none => simp [alookup, h2, hr, alookup_ainsert]

/-- The invariant maintained by the mutating operations (other than
`deletemessagelist`): both key lists are duplicate-free, the cache and the
`status` table hold the same identifiers, and each cached record's flags are
set-equal to the decoded stored flag string. -/
structure StoreInv (db : DB) : Prop where
  ml_nodup : (keys db.messagelist).Nodup
  st_nodup : (keys db.status).Nodup
  dom : ∀ u : Int, (alookup db.messagelist u).isSome ↔ (alookup db.status u).isSome
  flagsRel : ∀ u r s, alookup db.messagelist u = some r → alookup db.status u = some s →
    flagSetEq r.flags (decodeFlags s)

theorem inv_empty : StoreInv DB.empty := by
  refine ⟨?_, ?_, ?_, ?_⟩
  · simp [DB.empty, keys]
  · simp [DB.empty, keys]
  · intro u
    simp [DB.empty, alookup]
  · intro u r s h1 h2
    simp [DB.empty, alookup] at h1

theorem coherent_of_inv (db : DB) (h : StoreInv db) : coherent db := by
  intro u
  have hfold : alookup (cachemessagelist db).messagelist u =
      match alookup db.status u with
      | some s => some (⟨u, decodeFlags s, none⟩ : MsgRec)
      | none => none :=
    alookup_cacheFold db.status [] u h.st_nodup
  cases hml : alookup db.messagelist u with
  | none =>
    have hstn : alookup db.status u = none := by
      cases hst : alookup db.status u with
      | none => rfl
      | some s =>
        have hd := (h.dom u).mpr (by rw [hst]; rfl)
        rw [hml] at hd
        simp at hd
    have hcm : alookup (cachemessagelist db).messagelist u = none := by
      rw [hfold, hstn]
    rw [hcm]
    trivial
  | some r =>
    have hs : (alookup db.status u).isSome := (h.dom u).mp (by rw [hml]; rfl)
    obtain ⟨s, hsts⟩ := Option.isSome_iff_exists.mp hs
    have hcm : alookup (cachemessagelist db).messagelist u =
        some (⟨u, decodeFlags s, none⟩ : MsgRec) := by
      rw [hfold, hsts]
    rw [hcm]
    exact h.flagsRel u r s hml hsts

theorem inv_savemessageflags (db : DB) (uid : Int) (flags : List Char)
    (h : StoreInv db) (hex : uidexists db uid = true) :
    StoreInv (savemessageflags db uid flags) := by
  have hml : (alookup db.messagelist uid).isSome := by simpa [uidexists] using hex
  have hst : (alookup db.status uid).isSome := (h.dom uid).mp hml
  obtain ⟨s0, hs0⟩ := Option.isSome_iff_exists.mp hst
  refine ⟨?_, ?_, ?_, ?_⟩
  · exact nodup_keys_ainsert _ _ _ h.ml_nodup
  · show (keys (db.status.map (fun r =>
      if r.1 = uid then (r.1, String.mk (flags.insertionSort (· ≤ ·))) else r))).Nodup
    rw [keys_map_update]
    exact h.st_nodup
  · intro u
    show (alookup (ainsert db.messagelist uid
        ⟨uid, flags.insertionSort (· ≤ ·), none⟩) u).isSome ↔
      (alookup (db.status.map (fun r =>
        if r.1 = uid then (r.1, String.mk (flags.insertionSort (· ≤ ·))) else r)) u).isSome
    rw [alookup_ainsert, alookup_map_update]
    by_cases h2 : u = uid
    · subst h2
      simp [hs0]
    · have h2' : ¬ uid = u := fun hh => h2 hh.symm
      simp [h2, h2', h.dom u]
  · intro u r s hr hs
    rw [show alookup (savemessageflags db uid flags).messagelist u =
        alookup (ainsert db.messagelist uid ⟨uid, flags.insertionSort (· ≤ ·), none⟩) u
        from rfl, alookup_ainsert] at hr
    rw [show alookup (savemessageflags db uid flags).status u =
        alookup (db.status.map (fun r =>
          if r.1 = uid then (r.1, String.mk (flags.insertionSort (· ≤ ·))) else r)) u
        from rfl, alookup_map_update] at hs
    by_cases h2 : u = uid
    · subst h2
      rw [if_pos rfl] at hr
      rw [if_pos rfl, hs0] at hs
      cases hr
      cases hs
      intro c
      simp [decodeFlags]
    · have h2' : ¬ uid = u := fun hh => h2 hh.symm
      rw [if_neg h2'] at hr
      rw [if_neg h2] at hs
      exact h.flagsRel u r s hr hs

theorem inv_savemessage (db : DB) (uid : Int) (content : String) (flags : List Char)
    (rtime : Int) (h : StoreInv db) :
    StoreInv (savemessage db uid content flags rtime).1 := by
  by_cases hneg : uid < 0
  · rw [show (savemessage db uid content flags rtime).1 = db from by simp [savemessage, hneg]]
    exact h
  · cases hex : uidexists db uid with
    | true =>
      rw [show (savemessage db uid content flags rtime).1 = savemessageflags db uid flags from by
        simp [savemessage, hneg, hex]]
      exact inv_savemessageflags db uid flags h hex
    | false =>
      have hmln : alookup db.messagelist uid = none := by
        cases hx : alookup db.messagelist uid with
        | none => rfl
        | some r => rw [uidexists, hx] at hex; simp at hex
      have hstn : alookup db.status uid = none := by
        cases hx : alookup db.status uid with
        | none => rfl
        | some s =>
          have hd := (h.dom uid).mpr (by rw [hx]; rfl)
          rw [hmln] at hd
          simp at hd
      have hknotml : uid ∉ keys db.messagelist := (alookup_eq_none_iff _ _).mp hmln
      have hknotst : uid ∉ keys db.status := (alookup_eq_none_iff _ _).mp hstn
      rw [show (savemessage db uid content flags rtime).1 =
          (⟨ainsert db.messagelist uid ⟨uid, flags.insertionSort (· ≤ ·), some rtime⟩,
            db.status ++ [(uid, String.mk (flags.insertionSort (· ≤ ·)))]⟩ : DB) from by
        simp [savemessage, hneg, hex]]
      refine ⟨?_, ?_, ?_, ?_⟩
      · exact nodup_keys_ainsert _ _ _ h.ml_nodup
      · show (keys (db.status ++ [(uid, String.mk (flags.insertionSort (· ≤ ·)))])).Nodup
        rw [show keys (db.status ++ [(uid, String.mk (flags.insertionSort (· ≤ ·)))]) =
            keys db.status ++ [uid] from by simp [keys]]
        simp [List.nodup_append, h.st_nodup, hknotst]
      · intro u
        show (alookup (ainsert db.messagelist uid
            ⟨uid, flags.insertionSort (· ≤ ·), some rtime⟩) u).isSome ↔
          (alookup (db.status ++ [(uid, String.mk (flags.insertionSort (· ≤ ·)))]) u).isSome
        rw [alookup_ainsert, alookup_append]
        by_cases h2 : uid = u
        · subst h2
          simp [hstn, alookup]
        · have h2' : ¬ u = uid := fun hh => h2 hh.symm
          cases hx : alookup db.status u with
          | some s => simp [h2, hx, h.dom u]
          | none => simp [h2, hx, alookup, h2', h.dom u]
      · intro u r s hr hs
        rw [show alookup (DB.mk (ainsert db.messagelist uid
              ⟨uid, flags.insertionSort (· ≤ ·), some rtime⟩)
              (db.status ++ [(uid, String.mk (flags.insertionSort (· ≤ ·)))])).messagelist u =
            alookup (ainsert db.messagelist uid
              ⟨uid, flags.insertionSort (· ≤ ·), some rtime⟩) u from rfl,
          alookup_ainsert] at hr
        rw [show alookup (DB.mk (ainsert db.messagelist uid
              ⟨uid, flags.insertionSort (· ≤ ·), some rtime⟩)
              (db.status ++ [(uid, String.mk (flags.insertionSort (· ≤ ·)))])).status u =
            alookup (db.status ++ [(uid, String.mk (flags.insertionSort (· ≤ ·)))]) u from rfl,
          alookup_append] at hs
        by_cases h2 : uid = u
        · subst h2
          rw [if_pos rfl] at hr
          rw [hstn] at hs
          simp [alookup] at hs
          cases hr
          rw [← hs]
          intro c
          simp [decodeFlags]
        · have h2' : ¬ u = uid := fun hh => h2 hh.symm
          rw [if_neg h2] at hr
          cases hx : alookup db.status u with
          | some s' =>
            rw [hx] at hs
            simp at hs
            subst hs
            exact h.flagsRel u r s' hr hx
          | none =>
            rw [hx] at hs
            simp [alookup, h2] at hs

theorem inv_deleteOne (db : DB) (k : Int) (h : StoreInv db) :
    StoreInv ⟨aerase db.messagelist k, db.status.filter (fun r => decide (r.1 ≠ k))⟩ := by
  refine ⟨?_, ?_, ?_, ?_⟩
  · exact nodup_keys_aerase _ _ h.ml_nodup
  · exact (keys_filter_sublist _ _).nodup h.st_nodup
  · intro u
    show (alookup (aerase db.messagelist k) u).isSome ↔
      (alookup (db.status.filter (fun r => decide (r.1 ≠ k))) u).isSome
    rw [alookup_aerase _ _ _ h.ml_nodup, alookup_filter_ne]
    by_cases h2 : u = k <;> simp [h2, h.dom u]
  · intro u r s hr hs
    rw [show alookup (DB.mk (aerase db.messagelist k)
          (db.status.filter (fun r => decide (r.1 ≠ k)))).messagelist u =
        alookup (aerase db.messagelist k) u from rfl,
      alookup_aerase _ _ _ h.ml_nodup] at hr
    rw [show alookup (DB.mk (aerase db.messagelist k)
          (db.status.filter (fun r => decide (r.1 ≠ k)))).status u =
        alookup (db.status.filter (fun r => decide (r.1 ≠ k))) u from rfl,
      alookup_filter_ne] at hs
    by_cases h2 : u = k
    · rw [if_pos h2] at hr
      cases hr
    · rw [if_neg h2] at hr
      rw [if_neg h2] at hs
      exact h.flagsRel u r s hr hs

theorem inv_deleteFold (l : List Int) (db : DB) (h : StoreInv db) :
    StoreInv ⟨l.foldl aerase db.messagelist,
              l.foldl (fun st uid => st.filter (fun r => decide (r.1 ≠ uid))) db.status⟩ := by
  induction l generalizing db with
  | nil => exact h
  | cons k rest ih =>
    rw [List.foldl_cons, List.foldl_cons]
    exact ih ⟨aerase db.messagelist k, db.status.filter (fun r => decide (r.1 ≠ k))⟩
      (inv_deleteOne db k h)

theorem inv_deletemessages (db : DB) (uidlist : List Int) (h : StoreInv db) :
    StoreInv (deletemessages db uidlist).1 := by
  cases he : (uidlist.filter (fun uid => (alookup db.messagelist uid).isSome)).isEmpty with
  | true =>
    rw [show (deletemessages db uidlist).1 = db from by simp [deletemessages, he]]
    exact h
  | false =>
    rw [show (deletemessages db uidlist).1 =
        (⟨(uidlist.filter (fun uid => (alookup db.messagelist uid).isSome)).foldl aerase
            db.messagelist,
          (uidlist.filter (fun uid => (alookup db.messagelist uid).isSome)).foldl
            (fun st uid => st.filter (fun r => decide (r.1 ≠ uid))) db.status⟩ : DB) from by
      simp [deletemessages, he]]
    exact inv_deleteFold _ db h

theorem inv_applyOp (db : DB) (op : Op) (h : StoreInv db) (hpre : opPre db op)
    (hne : op ≠ Op.deleteAll) : StoreInv (applyOp db op) := by
  cases op with
  | save uid content flags rtime => exact inv_savemessage db uid content flags rtime h
  | saveflags uid flags => exact inv_savemessageflags db uid flags h hpre
  | delete uidlist => exact inv_deletemessages db uidlist h
  | deleteAll => exact absurd rfl hne

theorem inv_run (db : DB) (ops : List Op) (h : StoreInv db) (hpre : runPre db ops)
    (hall : Op.deleteAll ∉ ops) : StoreInv (run db ops) := by
  induction ops generalizing db with
  | nil => exact h
  | cons op rest ih =>
    have h1 : opPre db op := hpre.1
    have h2 : runPre (applyOp db op) rest := hpre.2
    have hne : op ≠ Op.deleteAll := fun hh => hall (by rw [hh]; exact List.mem_cons_self _ _)
    exact ih (applyOp db op) (inv_applyOp db op h h1 hne)
      h2 (fun hm => hall (List.mem_cons_of_mem _ hm))

/-! ### Further helper lemmas -/

theorem filter_key_eq_nil {α : Type} (st : List (Int × α)) (k : Int)
    (h : k ∉ keys st) : st.filter (fun r => decide (r.1 = k)) = [] := by
  induction st with
  | nil => rfl
  | cons p rest ih =>
    obtain ⟨k', v'⟩ := p
    have h1 : ¬ k' = k := fun hh => h ((mem_keys_cons k' v' rest k).mpr (Or.inl hh.symm))
    have h2 : k ∉ keys rest := fun hh => h ((mem_keys_cons k' v' rest k).mpr (Or.inr hh))
    simp [List.filter_cons, h1, ih h2]

theorem alookup_foldl_aerase {α : Type} (l : List Int) (ml : List (Int × α)) (u : Int)
    (h : (keys ml).Nodup) :
    alookup (l.foldl aerase ml) u = if u ∈ l then none else alookup ml u := by
  induction l generalizing ml with
  | nil => simp
  | cons k t ih =>
    rw [List.foldl_cons, ih _ (nodup_keys_aerase _ _ h), alookup_aerase _ _ _ h]
    by_cases h1 : u ∈ t
    · simp [h1]
    · by_cases h2 : u = k <;> simp [h1, h2]

theorem alookup_foldl_filter {α : Type} (l : List Int) (st : List (Int × α)) (u : Int) :
    alookup (l.foldl (fun s k => s.filter (fun r => decide (r.1 ≠ k))) st) u =
      if u ∈ l then none else alookup st u := by
  induction l generalizing st with
  | nil => simp
  | cons k t ih =>
    rw [List.foldl_cons, ih, alookup_filter_ne]
    by_cases h1 : u ∈ t
    · simp [h1]
    · by_cases h2 : u = k <;> simp [h1, h2]

theorem length_foldl_aerase {α : Type} (l : List Int) (ml : List (Int × α))
    (hml : (keys ml).Nodup) (hl : l.Nodup) (hmem : ∀ u ∈ l, u ∈ keys ml) :
    (l.foldl aerase ml).length = ml.length - l.length := by
  induction l generalizing ml with
  | nil => simp
  | cons k t ih =>
    have hk : k ∈ keys ml := hmem k (List.mem_cons_self _ _)
    have hkt : k ∉ t := (List.nodup_cons.mp hl).1
    have ht : t.Nodup := (List.nodup_cons.mp hl).2
    have hmem' : ∀ u ∈ t, u ∈ keys (aerase ml k) := by
      intro u hu
      have hne : u ≠ k := fun hh => hkt (hh ▸ hu)
      rw [← alookup_isSome_iff, alookup_aerase _ _ _ hml, if_neg hne, alookup_isSome_iff]
      exact hmem u (List.mem_cons_of_mem _ hu)
    rw [List.foldl_cons, ih (aerase ml k) (nodup_keys_aerase _ _ hml) ht hmem',
      length_aerase_mem _ _ hk]
    have hone : 1 ≤ ml.length := by
      cases ml with
      | nil => exact absurd hk (by simp [mem_keys_nil])
      | cons p q => simp
    simp only [List.length_cons]
    omega

theorem insertRetry_absorbs_locked (n : Nat) (rest : List ExecOutcome) :
    insertRetry (List.replicate n (ExecOutcome.operationalError "database is locked") ++ rest) =
      insertRetry rest := by
  induction n with
  | zero => simp
  | succ m ih => simpa [List.replicate_succ, insertRetry] using ih

theorem runDeletes_partial (fail : Int → Option String) (pre : List Int) (uid : Int)
    (rest : List Int) (msg : String) (ml : List (Int × MsgRec)) (st : List (Int × String))
    (hpre : ∀ u ∈ pre, fail u = none) (hf : fail uid = some msg) :
    runDeletes fail (pre ++ uid :: rest) ml st =
      (aerase (pre.foldl aerase ml) uid,
       pre.foldl (fun s u => s.filter (fun r => decide (r.1 ≠ u))) st,
       Except.error msg) := by
  induction pre generalizing ml st with
  | nil => simp [runDeletes, hf]
  | cons k t ih =>
    have hk : fail k = none := hpre k (List.mem_cons_self _ _)
    rw [List.cons_append, show runDeletes fail (k :: (t ++ uid :: rest)) ml st =
        runDeletes fail (t ++ uid :: rest) (aerase ml k)
          (st.filter (fun r => decide (r.1 ≠ k))) from by simp [runDeletes, hk]]
    rw [ih _ _ (fun u hu => hpre u (List.mem_cons_of_mem _ hu))]
    simp

/-! ### Claims -/

/-- Claim C5: for every negative identifier, `savemessage` returns the
identifier unchanged and leaves the whole state — the in-memory
`messagelist` and the `status` table — untouched. -/
theorem savemessage_negative (db : DB) (uid : Int) (content : String)
    (flags : List Char) (rtime : Int) (h : uid < 0) :
    savemessage db uid content flags rtime = (db, uid) := by
  simp [savemessage, h]

theorem savemessage_negative_witness :
    (-1 : Int) < 0 ∧ savemessage DB.empty (-1) "msg" ['F'] 7 = (DB.empty, -1) :=
  ⟨by decide, savemessage_negative DB.empty (-1) "msg" ['F'] 7 (by decide)⟩

/-- Claim C8: the flag codec round-trips — decoding the stored encoding of
any flag collection yields a set-equal flag collection — and the flags
`{'S','F'}` are stored as the sorted string "FS". -/
theorem flag_codec_roundtrip :
    (∀ F : List Char, flagSetEq (decodeFlags (encodeFlags F)) F) ∧
    encodeFlags ['S', 'F'] = "FS" := by
  constructor
  · intro F c
    have hperm := List.perm_insertionSort (fun x1 x2 : Char => x1 ≤ x2) F
    simpa [decodeFlags, encodeFlags] using hperm.mem_iff
  · decide

/-- Claim C9: any number of transient "database is locked" reports is
absorbed by the retry loop — a subsequent success completes the insert and
the transient condition is never surfaced — while the first non-locked
error, whether another `OperationalError` message or a different exception
class, escapes immediately and aborts the operation. -/
theorem insert_retry_policy (n : Nat) (msg : String)
    (h : msg ≠ "database is locked") :
    insertRetry (List.replicate n (ExecOutcome.operationalError "database is locked") ++
      [ExecOutcome.success]) = RetryResult.done ∧
    insertRetry (List.replicate n (ExecOutcome.operationalError "database is locked") ++
      [ExecOutcome.operationalError msg]) = RetryResult.raised msg ∧
    insertRetry (List.replicate n (ExecOutcome.operationalError "database is locked") ++
      [ExecOutcome.otherError msg]) = RetryResult.raised msg ∧
    insertRetry (List.replicate n (ExecOutcome.operationalError "database is locked")) =
      RetryResult.stillRetrying := by
  refine ⟨?_, ?_, ?_, ?_⟩
  · rw [insertRetry_absorbs_locked]
    rfl
  · rw [insertRetry_absorbs_locked]
    simp [insertRetry, h]
  · rw [insertRetry_absorbs_locked]
    rfl
  · rw [show List.replicate n (ExecOutcome.operationalError "database is locked") =
        List.replicate n (ExecOutcome.operationalError "database is locked") ++
          ([] : List ExecOutcome) from by simp,
      insertRetry_absorbs_locked]
    rfl

theorem insert_retry_policy_witness :
    ("disk full" : String) ≠ "database is locked" ∧
    (insertRetry (List.replicate 2 (ExecOutcome.operationalError "database is locked") ++
        [ExecOutcome.success]) = RetryResult.done ∧
      insertRetry (List.replicate 2 (ExecOutcome.operationalError "database is locked") ++
        [ExecOutcome.operationalError "disk full"]) = RetryResult.raised "disk full" ∧
      insertRetry (List.replicate 2 (ExecOutcome.operationalError "database is locked") ++
        [ExecOutcome.otherError "disk full"]) = RetryResult.raised "disk full" ∧
      insertRetry (List.replicate 2 (ExecOutcome.operationalError "database is locked")) =
        RetryResult.stillRetrying) :=
  ⟨by decide, insert_retry_policy 2 "disk full" (by decide)⟩

/-- Claim C2 (code bug): on a freshly created empty store — message count
zero — `isnewfolder` returns `false`, and after one saved message it
returns `true`: the comparison `getmessagecount() > 0` is inverted with
respect to the claim and to the comment inside `isnewfolder` itself, which
says the folder is new when there are no messages at all recorded in it. -/
theorem isnewfolder_inverted :
    getmessagecount DB.empty = 0 ∧ isnewfolder DB.empty = false ∧
    isnewfolder (savemessage DB.empty 1 "msg" ['F'] 0).1 = true := by
  refine ⟨rfl, rfl, by decide⟩

/-- Claim C4 fails as frozen: a fatal (non-transient) error during the
INSERT propagates, but the record added to `messagelist` immediately before
the INSERT stays there — nothing rolls the cache entry back, and the cache
now reports a record the store does not hold. -/
theorem savemessage_fatal_cache_not_rolled_back :
    savemessageWith DB.empty 1 "msg" ['F'] 7 [ExecOutcome.otherError "disk full"] =
      some (⟨[(1, ⟨1, ['F'], some 7⟩)], []⟩, Except.error "disk full") ∧
    (⟨[(1, ⟨1, ['F'], some 7⟩)], []⟩ : DB).messagelist ≠ DB.empty.messagelist := by
  refine ⟨rfl, by decide⟩

/-- Claim C4 (amended): if the INSERT fails fatally, the error propagates
and the `status` table is untouched, but the cache entry added before the
persistence call remains in `messagelist` — it is not rolled back, so the
cache reports a record the store does not hold. -/
theorem savemessage_fatal_keeps_cache_entry (db : DB) (uid : Int) (content : String)
    (flags : List Char) (rtime : Int) (outcomes : List ExecOutcome) (msg : String)
    (hneg : ¬ uid < 0) (hex : uidexists db uid = false)
    (hr : insertRetry outcomes = RetryResult.raised msg) :
    savemessageWith db uid content flags rtime outcomes =
      some (⟨ainsert db.messagelist uid ⟨uid, flags.insertionSort (· ≤ ·), some rtime⟩,
             db.status⟩, Except.error msg) ∧
    alookup (ainsert db.messagelist uid
        ⟨uid, flags.insertionSort (· ≤ ·), some rtime⟩) uid =
      some ⟨uid, flags.insertionSort (· ≤ ·), some rtime⟩ := by
  constructor
  · simp [savemessageWith, hneg, hex, hr]
  · rw [alookup_ainsert]
    simp

theorem savemessage_fatal_keeps_cache_entry_witness :
    (¬ (5 : Int) < 0) ∧ uidexists DB.empty 5 = false ∧
    insertRetry [ExecOutcome.operationalError "attempt to write a readonly database"] =
      RetryResult.raised "attempt to write a readonly database" ∧
    (savemessageWith DB.empty 5 "msg" ['S', 'F'] 3
        [ExecOutcome.operationalError "attempt to write a readonly database"] =
      some (⟨ainsert DB.empty.messagelist 5
               ⟨5, (['S', 'F'].insertionSort (· ≤ ·)), some 3⟩,
             DB.empty.status⟩, Except.error "attempt to write a readonly database") ∧
     alookup (ainsert DB.empty.messagelist 5
         ⟨5, (['S', 'F'].insertionSort (· ≤ ·)), some 3⟩) 5 =
      some ⟨5, (['S', 'F'].insertionSort (· ≤ ·)), some 3⟩) :=
  ⟨by decide, by decide, by decide,
   savemessage_fatal_keeps_cache_entry DB.empty 5 "msg" ['S', 'F'] 3
     [ExecOutcome.operationalError "attempt to write a readonly database"]
     "attempt to write a readonly database" (by decide) (by decide) (by decide)⟩

/-- Claim C3 fails as frozen: with uids 1 and 2 present, a
`deletemessages([1,2])` call whose DELETE for uid 2 fails still leaves the
DELETE for uid 1 committed — the `isolation_level=None` connection commits
each statement as it executes, so the call is not an all-or-nothing unit of
work. -/
theorem deletemessages_not_atomic :
    (deletemessagesWith ⟨[(1, ⟨1, ['F'], none⟩), (2, ⟨2, ['S'], none⟩)],
        [(1, "F"), (2, "S")]⟩ [1, 2]
      (fun u => if u = 2 then some "disk I/O error" else none)).2 =
      Except.error "disk I/O error" ∧
    (deletemessagesWith ⟨[(1, ⟨1, ['F'], none⟩), (2, ⟨2, ['S'], none⟩)],
        [(1, "F"), (2, "S")]⟩ [1, 2]
      (fun u => if u = 2 then some "disk I/O error" else none)).1.status = [(2, "S")] := by
  exact ⟨rfl, rfl⟩

/-- Claim C3 (amended): each DELETE of a `deletemessages` call commits
individually on the autocommitting connection; if the DELETE for `uid`
fails after the identifiers of `pre` were processed, the call raises, the
deletions for `pre` remain committed in the store, and the cache has lost
the entries for `pre` and `uid` — there is no all-or-nothing unit of
work. -/
theorem deletemessages_autocommit (db : DB) (uidlist : List Int)
    (fail : Int → Option String) (pre : List Int) (uid : Int) (rest : List Int)
    (msg : String)
    (hsplit : uidlist.filter (fun u => (alookup db.messagelist u).isSome) =
      pre ++ uid :: rest)
    (hpre : ∀ u ∈ pre, fail u = none) (hf : fail uid = some msg) :
    (deletemessagesWith db uidlist fail).2 = Except.error msg ∧
    (deletemessagesWith db uidlist fail).1.status =
      pre.foldl (fun s u => s.filter (fun r => decide (r.1 ≠ u))) db.status ∧
    (deletemessagesWith db uidlist fail).1.messagelist =
      aerase (pre.foldl aerase db.messagelist) uid := by
  have hne2 : (pre ++ uid :: rest).isEmpty = false := by
    cases pre <;> rfl
  have hd : deletemessagesWith db uidlist fail =
      (⟨(runDeletes fail (pre ++ uid :: rest) db.messagelist db.status).1,
        (runDeletes fail (pre ++ uid :: rest) db.messagelist db.status).2.1⟩,
       (runDeletes fail (pre ++ uid :: rest) db.messagelist db.status).2.2) := by
    simp [deletemessagesWith, hsplit, hne2]
  rw [hd, runDeletes_partial fail pre uid rest msg _ _ hpre hf]
  exact ⟨rfl, rfl, rfl⟩

theorem deletemessages_autocommit_witness :
    (([3, 4] : List Int).filter (fun u =>
        (alookup (⟨[(3, ⟨3, ['F'], none⟩), (4, ⟨4, ['S'], none⟩)],
          [(3, "F"), (4, "S")]⟩ : DB).messagelist u).isSome) = [3] ++ 4 :: []) ∧
    (∀ u ∈ ([3] : List Int),
      (fun v => if v = (4 : Int) then some "database table is locked" else none) u = none) ∧
    ((fun v => if v = (4 : Int) then some "database table is locked" else none) 4 =
      some "database table is locked") ∧
    ((deletemessagesWith (⟨[(3, ⟨3, ['F'], none⟩), (4, ⟨4, ['S'], none⟩)],
        [(3, "F"), (4, "S")]⟩ : DB) [3, 4]
      (fun v => if v = (4 : Int) then some "database table is locked" else none)).2 =
        Except.error "database table is locked" ∧
     (deletemessagesWith (⟨[(3, ⟨3, ['F'], none⟩), (4, ⟨4, ['S'], none⟩)],
        [(3, "F"), (4, "S")]⟩ : DB) [3, 4]
      (fun v => if v = (4 : Int) then some "database table is locked" else none)).1.status =
        ([3] : List Int).foldl (fun s u => s.filter (fun r => decide (r.1 ≠ u)))
          (⟨[(3, ⟨3, ['F'], none⟩), (4, ⟨4, ['S'], none⟩)],
            [(3, "F"), (4, "S")]⟩ : DB).status ∧
     (deletemessagesWith (⟨[(3, ⟨3, ['F'], none⟩), (4, ⟨4, ['S'], none⟩)],
        [(3, "F"), (4, "S")]⟩ : DB) [3, 4]
      (fun v => if v = (4 : Int) then some "database table is locked" else none)).1.messagelist =
        aerase (([3] : List Int).foldl aerase
          (⟨[(3, ⟨3, ['F'], none⟩), (4, ⟨4, ['S'], none⟩)],
            [(3, "F"), (4, "S")]⟩ : DB).messagelist) 4) :=
  ⟨by decide, by decide, by decide,
   deletemessages_autocommit
     (⟨[(3, ⟨3, ['F'], none⟩), (4, ⟨4, ['S'], none⟩)], [(3, "F"), (4, "S")]⟩ : DB)
     [3, 4] (fun v => if v = (4 : Int) then some "database table is locked" else none)
     [3] 4 [] "database table is locked" (by decide) (by decide) (by decide)⟩

/-- Claim C6: saving the same fresh non-negative identifier twice with
different flags leaves exactly one stored row for it, carrying the second
call's (encoded) flags, whose decoding is set-equal to the second call's
flags; the second call goes through the flag-update path and performs no
second insert (the row count is unchanged), and both calls return the
identifier. -/
theorem savemessage_idempotent_overwrite (db : DB) (uid : Int) (c1 c2 : String)
    (flags1 flags2 : List Char) (t1 t2 : Int) (hneg : ¬ uid < 0)
    (hml : alookup db.messagelist uid = none) (hst : uid ∉ keys db.status) :
    (savemessage db uid c1 flags1 t1).2 = uid ∧
    (savemessage (savemessage db uid c1 flags1 t1).1 uid c2 flags2 t2).2 = uid ∧
    (savemessage (savemessage db uid c1 flags1 t1).1 uid c2 flags2 t2).1.status.filter
        (fun r => decide (r.1 = uid)) = [(uid, encodeFlags flags2)] ∧
    (savemessage (savemessage db uid c1 flags1 t1).1 uid c2 flags2 t2).1.status.length =
      (savemessage db uid c1 flags1 t1).1.status.length ∧
    flagSetEq (decodeFlags (encodeFlags flags2)) flags2 := by
  have hex1 : uidexists db uid = false := by simp [uidexists, hml]
  have e1 : savemessage db uid c1 flags1 t1 =
      (⟨ainsert db.messagelist uid ⟨uid, flags1.insertionSort (· ≤ ·), some t1⟩,
        db.status ++ [(uid, String.mk (flags1.insertionSort (· ≤ ·)))]⟩, uid) := by
    simp [savemessage, hneg, hex1]
  have hex2 : uidexists (savemessage db uid c1 flags1 t1).1 uid = true := by
    rw [e1]
    simp [uidexists, alookup_ainsert]
  have esave : ∀ (dbx : DB) (c : String) (fl : List Char) (t : Int),
      uidexists dbx uid = true →
      savemessage dbx uid c fl t = (savemessageflags dbx uid fl, uid) := by
    intro dbx c fl t hx
    simp [savemessage, hneg, hx]
  have e2 := esave (savemessage db uid c1 flags1 t1).1 c2 flags2 t2 hex2
  have hstfinal : (savemessage (savemessage db uid c1 flags1 t1).1 uid c2 flags2 t2).1.status =
      (db.status ++ [(uid, String.mk (flags1.insertionSort (· ≤ ·)))]).map
        (fun r => if r.1 = uid then (r.1, String.mk (flags2.insertionSort (· ≤ ·))) else r) := by
    rw [e2, e1]
    rfl
  refine ⟨?_, ?_, ?_, ?_, ?_⟩
  · rw [e1]
  · rw [e2]
  · rw [hstfinal, List.map_append, List.filter_append]
    have hA : (db.status.map (fun r =>
        if r.1 = uid then (r.1, String.mk (flags2.insertionSort (· ≤ ·))) else r)).filter
        (fun r => decide (r.1 = uid)) = [] := by
      apply filter_key_eq_nil
      rw [keys_map_update]
      exact hst
    rw [hA]
    simp [encodeFlags]
  · rw [hstfinal, e1]
    simp
  · intro c
    have hperm := List.perm_insertionSort (fun x1 x2 : Char => x1 ≤ x2) flags2
    simpa [decodeFlags, encodeFlags] using hperm.mem_iff

theorem savemessage_idempotent_overwrite_witness :
    (¬ (3 : Int) < 0) ∧ alookup DB.empty.messagelist 3 = none ∧
    (3 : Int) ∉ keys DB.empty.status ∧
    ((savemessage DB.empty 3 "m1" ['F'] 1).2 = 3 ∧
     (savemessage (savemessage DB.empty 3 "m1" ['F'] 1).1 3 "m2" ['S', 'F'] 2).2 = 3 ∧
     (savemessage (savemessage DB.empty 3 "m1" ['F'] 1).1 3 "m2" ['S', 'F'] 2).1.status.filter
        (fun r => decide (r.1 = 3)) = [(3, encodeFlags ['S', 'F'])] ∧
     (savemessage (savemessage DB.empty 3 "m1" ['F'] 1).1 3 "m2" ['S', 'F'] 2).1.status.length =
       (savemessage DB.empty 3 "m1" ['F'] 1).1.status.length ∧
     flagSetEq (decodeFlags (encodeFlags ['S', 'F'])) ['S', 'F']) :=
  ⟨by decide, by decide, by decide,
   savemessage_idempotent_overwrite DB.empty 3 "m1" "m2" ['F'] ['S', 'F'] 1 2
     (by decide) (by decide) (by decide)⟩

/-- Claim C7 fails as frozen: with uid 1 cached, `deletemessages([1, 1])`
filters once against the initial cache, so uid 1 survives the filter twice;
the first pass deletes the cache entry and commits its DELETE, and the
second pass's `del self.messagelist[1]` raises KeyError — the call aborts
instead of silently ignoring the now-absent identifier. -/
theorem deletemessages_duplicate_uid_raises :
    deletemessagesChecked ⟨[(1, ⟨1, ['F'], none⟩)], [(1, "F")]⟩ [1, 1] =
      ⟨⟨[], []⟩, [1], Except.error "KeyError"⟩ ∧
    Except.error "KeyError" ≠ (Except.ok () : Except String Unit) := by
  refine ⟨rfl, fun h => Except.noConfusion h⟩

theorem runDeletesChecked_nodup (l : List Int) (ml : List (Int × MsgRec))
    (st : List (Int × String)) (hml : (keys ml).Nodup) (hl : l.Nodup)
    (hmem : ∀ u ∈ l, u ∈ keys ml) :
    runDeletesChecked l ml st =
      ⟨⟨l.foldl aerase ml,
        l.foldl (fun s k => s.filter (fun r => decide (r.1 ≠ k))) st⟩,
       l, Except.ok ()⟩ := by
  induction l generalizing ml st with
  | nil => rfl
  | cons k rest ih =>
    have hk : k ∈ keys ml := hmem k (List.mem_cons_self _ _)
    have hks : (alookup ml k).isSome := (alookup_isSome_iff ml k).mpr hk
    have hkr : k ∉ rest := (List.nodup_cons.mp hl).1
    have hrest : rest.Nodup := (List.nodup_cons.mp hl).2
    have hmem2 : ∀ u ∈ rest, u ∈ keys (aerase ml k) := by
      intro u hu
      have hne : u ≠ k := fun hh => hkr (hh ▸ hu)
      rw [← alookup_isSome_iff, alookup_aerase _ _ _ hml, if_neg hne, alookup_isSome_iff]
      exact hmem u (List.mem_cons_of_mem _ hu)
    rw [show runDeletesChecked (k :: rest) ml st =
        ⟨(runDeletesChecked rest (aerase ml k)
            (st.filter (fun x => decide (x.1 ≠ k)))).db,
         k :: (runDeletesChecked rest (aerase ml k)
            (st.filter (fun x => decide (x.1 ≠ k)))).deletes,
         (runDeletesChecked rest (aerase ml k)
            (st.filter (fun x => decide (x.1 ≠ k)))).outcome⟩ from by
      simp [runDeletesChecked, hks]]
    rw [ih _ _ (nodup_keys_aerase _ _ hml) hrest hmem2]
    rfl

/-- Claim C7 (amended): provided no cache-present identifier is repeated in
`uidlist` — the once-computed filtered list is duplicate-free —
`deletemessages(uidlist)` completes without error, issues DELETE statements
exactly for the identifiers of `uidlist` present in the cache, removes
exactly those from cache and store while silently ignoring absent ones with
no persistence call for them, performs zero storage operations when the
filtered set is empty, and the reduced count is visible through the
cache-backed message count immediately, with no reload.  On a list that
repeats a cached identifier the call instead raises KeyError mid-loop (see
the counterexample). -/
theorem deletemessagesChecked_spec (db : DB) (uidlist : List Int)
    (hml : (keys db.messagelist).Nodup)
    (hfil : (uidlist.filter (fun u => (alookup db.messagelist u).isSome)).Nodup) :
    (deletemessagesChecked db uidlist).outcome = Except.ok () ∧
    (deletemessagesChecked db uidlist).deletes =
      uidlist.filter (fun u => (alookup db.messagelist u).isSome) ∧
    (uidlist.filter (fun u => (alookup db.messagelist u).isSome) = [] →
      deletemessagesChecked db uidlist = ⟨db, [], Except.ok ()⟩) ∧
    (∀ u : Int, alookup (deletemessagesChecked db uidlist).db.messagelist u =
      if u ∈ uidlist ∧ (alookup db.messagelist u).isSome then none
      else alookup db.messagelist u) ∧
    (∀ u : Int, alookup (deletemessagesChecked db uidlist).db.status u =
      if u ∈ uidlist ∧ (alookup db.messagelist u).isSome then none
      else alookup db.status u) ∧
    getmessagecount (deletemessagesChecked db uidlist).db =
      getmessagecount db -
        (uidlist.filter (fun u => (alookup db.messagelist u).isSome)).length := by
  cases he : (uidlist.filter (fun u => (alookup db.messagelist u).isSome)).isEmpty with
  | true =>
    have hnil : uidlist.filter (fun u => (alookup db.messagelist u).isSome) = [] := by
      simpa using he
    have hno : ∀ u ∈ uidlist, ¬ ((alookup db.messagelist u).isSome = true) := by
      simpa using List.filter_eq_nil_iff.mp hnil
    have hd : deletemessagesChecked db uidlist = ⟨db, [], Except.ok ()⟩ := by
      simp [deletemessagesChecked, he]
    refine ⟨?_, ?_, ?_, ?_, ?_, ?_⟩
    · rw [hd]
    · rw [hd, hnil]
    · intro _
      exact hd
    · intro u
      rw [hd]
      by_cases hc : u ∈ uidlist ∧ (alookup db.messagelist u).isSome
      · exact absurd hc.2 (hno u hc.1)
      · rw [if_neg hc]
    · intro u
      rw [hd]
      by_cases hc : u ∈ uidlist ∧ (alookup db.messagelist u).isSome
      · exact absurd hc.2 (hno u hc.1)
      · rw [if_neg hc]
    · rw [hd, hnil]
      simp [getmessagecount]
  | false =>
    have hmemiff : ∀ u : Int,
        (u ∈ uidlist.filter (fun v => (alookup db.messagelist v).isSome)) ↔
        (u ∈ uidlist ∧ (alookup db.messagelist u).isSome) := by
      intro u
      simp [List.mem_filter]
    have hmem : ∀ u ∈ uidlist.filter (fun v => (alookup db.messagelist v).isSome),
        u ∈ keys db.messagelist := by
      intro u hu
      rw [← alookup_isSome_iff]
      exact ((hmemiff u).mp hu).2
    have hd : deletemessagesChecked db uidlist =
        runDeletesChecked (uidlist.filter (fun u => (alookup db.messagelist u).isSome))
          db.messagelist db.status := by
      simp [deletemessagesChecked, he]
    rw [hd, runDeletesChecked_nodup _ _ _ hml hfil hmem]
    refine ⟨rfl, rfl, ?_, ?_, ?_, ?_⟩
    · intro hnil
      rw [hnil] at he
      simp at he
    · intro u
      show alookup ((uidlist.filter (fun v => (alookup db.messagelist v).isSome)).foldl
          aerase db.messagelist) u = _
      rw [alookup_foldl_aerase _ _ _ hml]
      by_cases hc : u ∈ uidlist ∧ (alookup db.messagelist u).isSome
      · rw [if_pos ((hmemiff u).mpr hc), if_pos hc]
      · rw [if_neg (fun hh => hc ((hmemiff u).mp hh)), if_neg hc]
    · intro u
      show alookup ((uidlist.filter (fun v => (alookup db.messagelist v).isSome)).foldl
          (fun s k => s.filter (fun r => decide (r.1 ≠ k))) db.status) u = _
      rw [alookup_foldl_filter]
      by_cases hc : u ∈ uidlist ∧ (alookup db.messagelist u).isSome
      · rw [if_pos ((hmemiff u).mpr hc), if_pos hc]
      · rw [if_neg (fun hh => hc ((hmemiff u).mp hh)), if_neg hc]
    · show ((uidlist.filter (fun v => (alookup db.messagelist v).isSome)).foldl
          aerase db.messagelist).length = _
      rw [length_foldl_aerase _ _ hml hfil hmem]
      rfl

theorem deletemessagesChecked_spec_witness :
    (keys (⟨[(5, ⟨5, ['F'], none⟩), (3, ⟨3, ['F', 'S'], none⟩)],
        [(5, "F"), (3, "FS")]⟩ : DB).messagelist).Nodup ∧
    (([5, 99] : List Int).filter (fun u =>
      (alookup (⟨[(5, ⟨5, ['F'], none⟩), (3, ⟨3, ['F', 'S'], none⟩)],
        [(5, "F"), (3, "FS")]⟩ : DB).messagelist u).isSome)).Nodup ∧
    (deletemessagesChecked (⟨[(5, ⟨5, ['F'], none⟩), (3, ⟨3, ['F', 'S'], none⟩)],
        [(5, "F"), (3, "FS")]⟩ : DB) [5, 99]).outcome = Except.ok () ∧
    (deletemessagesChecked (⟨[(5, ⟨5, ['F'], none⟩), (3, ⟨3, ['F', 'S'], none⟩)],
        [(5, "F"), (3, "FS")]⟩ : DB) [5, 99]).deletes = [5] ∧
    getmessagecount (deletemessagesChecked (⟨[(5, ⟨5, ['F'], none⟩),
        (3, ⟨3, ['F', 'S'], none⟩)], [(5, "F"), (3, "FS")]⟩ : DB) [5, 99]).db = 1 :=
  ⟨by decide, by decide,
   (deletemessagesChecked_spec (⟨[(5, ⟨5, ['F'], none⟩), (3, ⟨3, ['F', 'S'], none⟩)],
       [(5, "F"), (3, "FS")]⟩ : DB) [5, 99] (by decide) (by decide)).1,
   ((deletemessagesChecked_spec (⟨[(5, ⟨5, ['F'], none⟩), (3, ⟨3, ['F', 'S'], none⟩)],
       [(5, "F"), (3, "FS")]⟩ : DB) [5, 99] (by decide) (by decide)).2.1).trans (by decide),
   ((deletemessagesChecked_spec (⟨[(5, ⟨5, ['F'], none⟩), (3, ⟨3, ['F', 'S'], none⟩)],
       [(5, "F"), (3, "FS")]⟩ : DB) [5, 99] (by decide) (by decide)).2.2.2.2.2).trans
     (by decide)⟩

/-- Claim C10 fails as frozen: `savemessage(5, _, ['F'], 42)` stores a
receipt time for uid 5, but the following `savemessageflags(5, ['S'])`
replaces the whole cache record with `{'uid', 'flags'}`, dropping the
previously stored receipt time instead of leaving the record's other fields
unchanged. -/
theorem saveflags_drops_time :
    alookup (savemessage DB.empty 5 "msg" ['F'] 42).1.messagelist 5 =
      some ⟨5, ['F'], some 42⟩ ∧
    alookup (savemessageflags (savemessage DB.empty 5 "msg" ['F'] 42).1
        5 ['S']).messagelist 5 = some ⟨5, ['S'], none⟩ ∧
    some (42 : Int) ≠ (none : Option Int) := by
  refine ⟨by decide, by decide, by decide⟩

/-- Claim C10 (amended): `savemessageflags(uid, flags)` leaves every other
cache record and every other store row unchanged, and sets uid's cache
record to `{'uid': uid, 'flags': sorted flags}` — a fresh record with no
receipt time, so uid's previously stored receipt time is dropped rather
than preserved. -/
theorem saveflags_frame (db : DB) (uid : Int) (flags : List Char) :
    (∀ u : Int, u ≠ uid →
      alookup (savemessageflags db uid flags).messagelist u = alookup db.messagelist u ∧
      alookup (savemessageflags db uid flags).status u = alookup db.status u) ∧
    alookup (savemessageflags db uid flags).messagelist uid =
      some ⟨uid, flags.insertionSort (· ≤ ·), none⟩ := by
  constructor
  · intro u hu
    constructor
    · rw [show (savemessageflags db uid flags).messagelist =
          ainsert db.messagelist uid ⟨uid, flags.insertionSort (· ≤ ·), none⟩ from rfl,
        alookup_ainsert, if_neg (fun hh => hu hh.symm)]
    · rw [show (savemessageflags db uid flags).status =
          db.status.map (fun r =>
            if r.1 = uid then (r.1, String.mk (flags.insertionSort (· ≤ ·))) else r) from rfl,
        alookup_map_update, if_neg hu]
  · rw [show (savemessageflags db uid flags).messagelist =
        ainsert db.messagelist uid ⟨uid, flags.insertionSort (· ≤ ·), none⟩ from rfl,
      alookup_ainsert, if_pos rfl]

theorem saveflags_frame_witness :
    ((7 : Int) ≠ 5) ∧
    alookup (savemessageflags (⟨[(5, ⟨5, ['F'], some 42⟩), (7, ⟨7, ['S'], none⟩)],
        [(5, "F"), (7, "S")]⟩ : DB) 5 ['D']).messagelist 7 =
      alookup (⟨[(5, ⟨5, ['F'], some 42⟩), (7, ⟨7, ['S'], none⟩)],
        [(5, "F"), (7, "S")]⟩ : DB).messagelist 7 ∧
    alookup (savemessageflags (⟨[(5, ⟨5, ['F'], some 42⟩), (7, ⟨7, ['S'], none⟩)],
        [(5, "F"), (7, "S")]⟩ : DB) 5 ['D']).messagelist 5 =
      some ⟨5, ['D'].insertionSort (· ≤ ·), none⟩ :=
  ⟨by decide,
   ((saveflags_frame (⟨[(5, ⟨5, ['F'], some 42⟩), (7, ⟨7, ['S'], none⟩)],
       [(5, "F"), (7, "S")]⟩ : DB) 5 ['D']).1 7 (by decide)).1,
   (saveflags_frame (⟨[(5, ⟨5, ['F'], some 42⟩), (7, ⟨7, ['S'], none⟩)],
       [(5, "F"), (7, "S")]⟩ : DB) 5 ['D']).2⟩

/-- Claim C1 (amended): for every sequence of completed mutating operations
drawn from `savemessage`, `savemessageflags` and `deletemessages` satisfying
their preconditions, the in-memory `messagelist` holds the same identifier
set and set-equal per-identifier flags as an independent full reload via
`cachemessagelist` from the `status` table.  The claim as frozen also
includes `deletemessagelist`, after which coherence fails (see the
counterexample): it empties the store but leaves the cache untouched. -/
theorem run_coherent (ops : List Op) (hpre : runPre DB.empty ops)
    (hall : Op.deleteAll ∉ ops) : coherent (run DB.empty ops) :=
  coherent_of_inv _ (inv_run DB.empty ops inv_empty hpre hall)

theorem run_coherent_witness :
    runPre DB.empty [Op.save 1 "msg" ['F'] 0, Op.delete [1]] ∧
    Op.deleteAll ∉ [Op.save 1 "msg" ['F'] 0, Op.delete [1]] ∧
    coherent (run DB.empty [Op.save 1 "msg" ['F'] 0, Op.delete [1]]) := by
  have h1 : runPre DB.empty [Op.save 1 "msg" ['F'] 0, Op.delete [1]] :=
    ⟨trivial, trivial, trivial⟩
  have h2 : Op.deleteAll ∉ [Op.save 1 "msg" ['F'] 0, Op.delete [1]] := by decide
  exact ⟨h1, h2, run_coherent [Op.save 1 "msg" ['F'] 0, Op.delete [1]] h1 h2⟩

/-- Claim C1 fails as frozen: after `savemessage(1, ...)` followed by
`deletemessagelist()`, the cache still holds uid 1 while an independent
full reload from the (now empty) store holds nothing — the two diverge. -/
theorem run_deleteAll_incoherent :
    ¬ coherent (run DB.empty [Op.save 1 "msg" ['F'] 0, Op.deleteAll]) := by
  intro h
  have h1 := h 1
  rw [show alookup (run DB.empty [Op.save 1 "msg" ['F'] 0, Op.deleteAll]).messagelist 1 =
      some ⟨1, ['F'], some 0⟩ from by decide] at h1
  rw [show alookup (cachemessagelist
      (run DB.empty [Op.save 1 "msg" ['F'] 0, Op.deleteAll])).messagelist 1 =
      none from by decide] at h1
  exact h1

end LocalStatusSQLite
